import Mathlib

/-!
Verification of the scope-leak heuristic analyzer of the repository
(src/client/check-onerror-params.py and src/client/find-id-error.py).

Each Python script reads a file, splits it on newlines, and scans the lines
with hand-written regular expressions.  The embedding below models one file
as a `List Line` (a line is a `List Char`) and translates each regular
expression into an explicit character-level matcher with the same
semantics (leftmost `re.search`, greedy star with the maximal-munch
argument where backtracking cannot change the outcome).
-/

namespace OnErr

/-- A source line, as the list of its characters. -/
abbrev Line := List Char

/-- Opening curly brace character. -/
def lbrace : Char := Char.ofNat 123

/-- Closing curly brace character. -/
def rbrace : Char := Char.ofNat 125

/-- Python regex `\s` over ASCII: space, tab, newline, carriage return,
vertical tab, form feed. -/
def isPySpace (c : Char) : Bool :=
  c = ' ' || c = '\t' || c = '\n' || c = '\r' || c = Char.ofNat 11 || c = Char.ofNat 12

/-- Python regex `\w` over ASCII: letters, digits, underscore. -/
def isWordChar (c : Char) : Bool := c.isAlphanum || c = '_'

/-- Convert a string literal to a `Line`. -/
def chars (s : String) : Line := s.data

/-- Match a literal pattern at the head of the input; on success return the rest. -/
def matchLit (pat l : Line) : Option Line :=
  if pat.isPrefixOf l then some (l.drop pat.length) else none

/-- Greedy `\s*`. -/
def skipWS (l : Line) : Line := l.dropWhile isPySpace

/-- Greedy `\s+`: at least one whitespace character, then any further ones. -/
def ws1 : Line → Option Line
  | c :: r => if isPySpace c then some (r.dropWhile isPySpace) else none
  | [] => none

/-- Emulate `re.search` with a Boolean matcher: try every start position,
left to right. -/
def reSearch (f : Line → Bool) : Line → Bool
  | [] => f []
  | c :: rest => f (c :: rest) || reSearch f rest

/-- Emulate `re.search` where the matcher also needs the previous character
(used for a leading `\b`). -/
def reSearchPrev (f : Option Char → Line → Bool) : Option Char → Line → Bool
  | prev, [] => f prev []
  | prev, c :: rest => f prev (c :: rest) || reSearchPrev f (some c) rest

/-- Emulate `re.search` returning data from the leftmost successful position. -/
def reSearchSome {α : Type} (f : Line → Option α) : Line → Option α
  | [] => f []
  | c :: rest =>
    match f (c :: rest) with
    | some a => some a
    | none => reSearchSome f rest

/-- Python `str.strip()`: drop leading and trailing whitespace. -/
def trimChars (l : Line) : Line :=
  ((l.dropWhile isPySpace).reverse.dropWhile isPySpace).reverse

/-- Matcher, at one position, for `onError:\s*\(\s*error[^,)]*\)\s*=>`
(check-onerror-params.py line 24).  The star `[^,)]*` followed by `\)` is
deterministic: it must stop exactly at the first `,` or `)`. -/
def sigAAt (l : Line) : Bool :=
  match matchLit (chars "onError:") l with
  | none => false
  | some r =>
    match matchLit (chars "(") (skipWS r) with
    | none => false
    | some r2 =>
      match matchLit (chars "error") (skipWS r2) with
      | none => false
      | some r3 =>
        match r3.dropWhile (fun c => !(c = ',' || c = ')')) with
        | ')' :: r4 => (matchLit (chars "=>") (skipWS r4)).isSome
        | _ => false

/-- `re.search` of the mode-A handler signature over a whole line. -/
def searchSigA : Line → Bool := reSearch sigAAt

/-- Matcher, at one position, for `const\s+(\w+)\s*=\s*useMutation`
(check-onerror-params.py line 28), returning the captured group. -/
def ownerAt (l : Line) : Option Line :=
  match matchLit (chars "const") l with
  | none => none
  | some r =>
    match ws1 r with
    | none => none
    | some r1 =>
      let name := r1.takeWhile isWordChar
      if name.isEmpty then none
      else
        match matchLit (chars "=") ((r1.dropWhile isWordChar).dropWhile isPySpace) with
        | none => none
        | some r2 =>
          if (chars "useMutation").isPrefixOf (r2.dropWhile isPySpace) then some name
          else none

/-- Leftmost `re.search` for the mutation-binding declaration, with its
captured name. -/
def ownerSearch : Line → Option Line := reSearchSome ownerAt

/-- Index window of the backward owner lookup: `range(max(0, i-20), i)`
(check-onerror-params.py line 27).  Note the loop runs forward, from the
farthest line in the window towards the signature line. -/
def ownerWindow (i : Nat) : List Nat := List.range' (i - 20) (i - (i - 20))

/-- Owner-name lookup (check-onerror-params.py lines 26-31): first match of
the forward iteration over the window wins; sentinel `"unknown"` otherwise. -/
def ownerName (lines : List Line) (i : Nat) : Line :=
  match (ownerWindow i).findSome? (fun j => ownerSearch (lines.getD j [])) with
  | some n => n
  | none => chars "unknown"

/-- Full-line test for `^\s*\}\s*,?\s*$` (check-onerror-params.py line 39). -/
def isCloseA (l : Line) : Bool :=
  match skipWS l with
  | c :: r =>
    c = rbrace &&
      (let r2 := skipWS r
       let r3 := match r2 with
                 | c2 :: t => if c2 = ',' then t else r2
                 | [] => r2
       (skipWS r3).isEmpty)
  | [] => false

/-- Test on the line after a lone closing brace (check-onerror-params.py
line 43): stripped, it must start with `on`, or equal `});`, or equal `}`. -/
def nextOkA (next : Line) : Bool :=
  let s := trimChars next
  (chars "on").isPrefixOf s || s = chars "\x7d);" || s = chars "\x7d"

/-- Break condition of the mode-A body scan at index `j`
(check-onerror-params.py lines 39-44): a close-only line whose immediately
following line (when it exists) confirms the end of the handler. -/
def breakA (lines : List Line) (j : Nat) : Bool :=
  isCloseA (lines.getD j []) && decide (j + 1 < lines.length) &&
    nextOkA (lines.getD (j + 1) [])

/-- Indices of the forward body-scan window: `range(i+1, min(i+31, len(lines)))`
(check-onerror-params.py line 35). -/
def bodyIdxA (i len : Nat) : List Nat := List.range' (i + 1) (min (i + 31) len - (i + 1))

/-- Fuelled scanner for `re.findall(r'\$\{(\w+)\}', line)`: non-overlapping
matches, left to right.  After a failed start the engine advances one
position; after a successful match it resumes past the closing brace.
Every recursive call strictly shrinks the list, so fuel equal to the list
length (supplied by `findTemplateVars`) never runs out. -/
def ftvAux : Nat → Line → List Line
  | 0, _ => []
  | _, [] => []
  | fuel + 1, c :: rest =>
    if c = '$' then
      match rest with
      | c2 :: rest2 =>
        if c2 = lbrace then
          let w := rest2.takeWhile isWordChar
          if w.isEmpty then ftvAux fuel rest
          else
            (match rest2.dropWhile isWordChar with
             | c3 :: rest3 =>
               if c3 = rbrace then w :: ftvAux fuel rest3
               else ftvAux fuel rest
             | [] => ftvAux fuel rest)
        else ftvAux fuel rest
      | [] => []
    else ftvAux fuel rest

/-- `re.findall(r'\$\{(\w+)\}', line)` (check-onerror-params.py line 48). -/
def findTemplateVars (l : Line) : List Line := ftvAux l.length l

/-- The fixed allowlist (check-onerror-params.py line 51). -/
def allowlist : List Line :=
  [chars "error", chars "id", chars "data", chars "variables", chars "context",
   chars "e", chars "i"]

/-- Matcher, at one position with its previous character, for
`\b<var>\b\s*[.:[]` (check-onerror-params.py line 52). -/
def memberAt (v : Line) (prev : Option Char) (l : Line) : Bool :=
  (match prev with | some c => !isWordChar c | none => true) &&
  (match matchLit v l with
   | some r =>
     match skipWS r with
     | c :: _ => c = '.' || c = ':' || c = '['
     | [] => false
   | none => false)

/-- `re.search(rf'\b{var}\b\s*[.:[]', line)`. -/
def memberCheck (v l : Line) : Bool := reSearchPrev (memberAt v) none l

/-- Keyword alternatives of check-onerror-params.py line 53. -/
def declKws : List Line :=
  [chars "error", chars "const", chars "let", chars "var", chars "function",
   chars "return", chars "if", chars "for", chars "while"]

/-- Matcher, at one position, for `(error|const|let|var|function|return|if|for|while)\s+<var>`. -/
def declKwAt (v : Line) (l : Line) : Bool :=
  declKws.any (fun kw =>
    match matchLit kw l with
    | some r =>
      match ws1 r with
      | some r2 => v.isPrefixOf r2
      | none => false
    | none => false)

/-- `re.search(r'(error|const|let|var|function|return|if|for|while)\s+' + var, line)`. -/
def declKwCheck (v l : Line) : Bool := reSearch (declKwAt v) l

/-- One extracted identifier against one body line (check-onerror-params.py
lines 49-56): allowlist, member-access and declaration-keyword filters, then
deduplicating append to the accumulated list. -/
def stepVar (cl : Line) (acc : List Line) (v : Line) : List Line :=
  if v ∉ allowlist ∧ memberCheck v cl = false then
    if declKwCheck v cl = false then
      if v ∈ acc then acc else acc ++ [v]
    else acc
  else acc

/-- Process all `${...}` identifiers of one body line. -/
def processLine (cl : Line) (acc : List Line) : List Line :=
  (findTemplateVars cl).foldl (stepVar cl) acc

/-- The mode-A body scan (check-onerror-params.py lines 35-56): walk the
window indices, stop at the break condition, otherwise accumulate
suspicious identifiers. -/
def scanBodyA (lines : List Line) : List Nat → List Line → List Line
  | [], acc => acc
  | j :: rest, acc =>
    if breakA lines j then acc
    else scanBodyA lines rest (processLine (lines.getD j []) acc)

/-- Index at which the mode-A body scan stops: the first break-condition
index, or the window edge when none fires. -/
def bodyEndAAux (lines : List Line) : List Nat → Nat → Nat
  | [], d => d
  | j :: rest, d => if breakA lines j then j else bodyEndAAux lines rest d

/-- Stopping index of the mode-A body scan for the handler at index `i`. -/
def bodyEndA (lines : List Line) (i : Nat) : Nat :=
  bodyEndAAux lines (bodyIdxA i lines.length) (min (i + 31) lines.length)

/-- The body-line indices the mode-A scan actually processes. -/
def scannedA (lines : List Line) (i : Nat) : List Nat :=
  (bodyIdxA i lines.length).takeWhile (fun j => !(breakA lines j))

/-- One report entry of check-onerror-params.py (lines 59-65); the file path
is fixed per analysis run and omitted. -/
structure Issue where
  line : Nat
  mutation : Line
  vars : List Line
  code : Line
deriving DecidableEq

/-- The work done for one candidate signature index `i` of the mode-A scan
(check-onerror-params.py lines 24-65). -/
def issueAtA (lines : List Line) (i : Nat) : Option Issue :=
  if searchSigA (lines.getD i []) then
    if (scanBodyA lines (bodyIdxA i lines.length) []).isEmpty then none
    else some ⟨i + 1, ownerName lines i, scanBodyA lines (bodyIdxA i lines.length) [],
               trimChars (lines.getD i [])⟩
  else none

/-- `check_file` of check-onerror-params.py on decoded content. -/
def checkFileA (lines : List Line) : List Issue :=
  (List.range lines.length).filterMap (issueAtA lines)

/-- Matcher, at one position, for `onError:\s*\(error[^)]*\)\s*=>`
(find-id-error.py line 24). -/
def sigBAt (l : Line) : Bool :=
  match matchLit (chars "onError:") l with
  | none => false
  | some r =>
    match matchLit (chars "(error") (skipWS r) with
    | none => false
    | some r2 =>
      match r2.dropWhile (fun c => !(c = ')')) with
      | ')' :: r3 => (matchLit (chars "=>") (skipWS r3)).isSome
      | _ => false

/-- `re.search` of the mode-B handler signature over a whole line. -/
def searchSigB : Line → Bool := reSearch sigBAt

/-- Substring containment: some suffix of the line starts with the pattern. -/
def containsSub (pat : Line) : Line → Bool
  | [] => pat.isPrefixOf []
  | c :: rest => pat.isPrefixOf (c :: rest) || containsSub pat rest

/-- The literal alternatives of find-id-error.py line 33 (in `re.search`, the
alternation holds iff some alternative occurs as a substring). -/
def exclPats : List Line :=
  [chars "error.id", chars ".id", chars "userId", chars "eventId",
   chars "meetingId", chars "messageId", chars "id:", chars "id?:",
   chars "id,", chars "\x7bid", chars "invalidateQueries"]

/-- The false-positive exclusion of find-id-error.py line 33. -/
def exclB (l : Line) : Bool := exclPats.any (fun p => containsSub p l)

/-- Matcher, at one position with its previous character, for `\bid\b`
(find-id-error.py line 31). -/
def wordIdAt (prev : Option Char) (l : Line) : Bool :=
  (match prev with | some c => !isWordChar c | none => true) &&
  (match matchLit (chars "id") l with
   | some r =>
     match r with
     | c :: _ => !isWordChar c
     | [] => true
   | none => false)

/-- `re.search(r'\bid\b', line)`. -/
def hasWordId (l : Line) : Bool := reSearchPrev wordIdAt none l

/-- A mode-B body line is reported when it holds a word-bounded `id` and no
exclusion alternative occurs (find-id-error.py lines 31-33). -/
def reportB (l : Line) : Bool := hasWordId l && !(exclB l)

/-- Full-line test for `^\s*\},?\s*$` (find-id-error.py line 43): no
whitespace is allowed between the brace and the comma here. -/
def isCloseB (l : Line) : Bool :=
  match skipWS l with
  | c :: r =>
    c = rbrace &&
      (let r2 := match r with
                 | c2 :: t => if c2 = ',' then t else r
                 | [] => r
       (skipWS r2).isEmpty)
  | [] => false

/-- Anchored test for `^\s*const\s+\w+\s*=` (find-id-error.py line 43). -/
def isConstLineB (l : Line) : Bool :=
  match matchLit (chars "const") (skipWS l) with
  | none => false
  | some r =>
    match ws1 r with
    | none => false
    | some r2 =>
      !(r2.takeWhile isWordChar).isEmpty &&
        (chars "=").isPrefixOf ((r2.dropWhile isWordChar).dropWhile isPySpace)

/-- Stop condition of the mode-B body scan (find-id-error.py line 43). -/
def stopB (l : Line) : Bool := isCloseB l || isConstLineB l

/-- Indices of the mode-B forward window: `range(i+1, min(i+21, len(lines)))`
(find-id-error.py line 26). -/
def bodyIdxB (i len : Nat) : List Nat := List.range' (i + 1) (min (i + 21) len - (i + 1))

/-- One report entry of find-id-error.py (lines 34-39); the file path is
fixed per analysis run and omitted. -/
structure Problem where
  lineNum : Nat
  line : Line
  onErrorLine : Nat
deriving DecidableEq

/-- The mode-B body scan (find-id-error.py lines 26-44): report-and-break at
the first qualifying `id` line, stop silently at a boundary line. -/
def scanBodyB (i : Nat) (lines : List Line) : List Nat → Option Problem
  | [] => none
  | j :: rest =>
    if reportB (lines.getD j []) then some ⟨j + 1, trimChars (lines.getD j []), i + 1⟩
    else if stopB (lines.getD j []) then none
    else scanBodyB i lines rest

/-- The body-line indices the mode-B scan passes without reporting or
stopping. -/
def scannedB (lines : List Line) (i : Nat) : List Nat :=
  (bodyIdxB i lines.length).takeWhile
    (fun j => !(reportB (lines.getD j [])) && !(stopB (lines.getD j [])))

/-- The work done for one candidate signature index `i` of the mode-B scan. -/
def probAtB (lines : List Line) (i : Nat) : Option Problem :=
  if searchSigB (lines.getD i []) then scanBodyB i lines (bodyIdxB i lines.length)
  else none

/-- `check_file` of find-id-error.py on decoded content. -/
def checkFileB (lines : List Line) : List Problem :=
  (List.range lines.length).filterMap (probAtB lines)

/-- A file handed to `check_file`: `none` models an unreadable or
undecodable file (the `try`/`except` of lines 10-14 of either script),
`some` carries the decoded lines. -/
abbrev FileInput := Option (List Line)

/-- `check_file` of check-onerror-params.py including its `try`/`except`
guard: an unreadable file yields `[]`. -/
def checkTopA : FileInput → List Issue
  | none => []
  | some ls => checkFileA ls

/-- `check_file` of find-id-error.py including its `try`/`except` guard. -/
def checkTopB : FileInput → List Problem
  | none => []
  | some ls => checkFileB ls

/-- The aggregation loop of `main` in check-onerror-params.py (lines 75-79):
`all_issues.extend(check_file(p))` over the traversed files. -/
def allIssuesA (files : List FileInput) : List Issue :=
  files.foldl (fun acc f => acc ++ checkTopA f) []

/-- The aggregation loop of `main` in find-id-error.py (lines 54-56). -/
def allProblemsB (files : List FileInput) : List Problem :=
  files.foldl (fun acc f => acc ++ checkTopB f) []

/-! ### Concrete example files used by the witnesses and counterexamples -/

/-- The end-to-end scenario of the specification: a mutation binding `m`,
an `onError` handler, and a toast line interpolating `id`. -/
def c1file : List Line :=
  [chars "const m = useMutation(save);",
   chars "  onError: (error) => \x7b",
   chars "    toast(`Failed $\x7bid\x7d`);",
   chars "  \x7d,",
   chars "\x7d);"]

/-- A handler whose body has surviving identifiers on two distinct lines. -/
def ex3 : List Line :=
  [chars "onError: (error) => \x7b",
   chars "  t(`$\x7bfoo\x7d`);",
   chars "  t(`$\x7bbar\x7d`);",
   chars "\x7d,",
   chars "\x7d);"]

/-- Two mutation bindings inside the backward window of one handler. -/
def exW : List Line :=
  [chars "const a = useMutation(x);",
   chars "const b = useMutation(y);",
   chars "onError: (error) => \x7b",
   chars "  t(`$\x7bfoo\x7d`);",
   chars "\x7d,",
   chars "\x7d);"]

/-- A handler closed by a brace-only line that is followed by a blank line
before the next `onSuccess:` property. -/
def ex7 : List Line :=
  [chars "onError: (error) => \x7b",
   chars "  a(`$\x7bfoo\x7d`);",
   chars "  \x7d,",
   chars "",
   chars "  onSuccess: () => \x7b",
   chars "  b(`$\x7bbaz\x7d`);",
   chars "  \x7d,",
   chars "\x7d);"]

/-- An oversized handler body with no recognizable closing pattern. -/
def ex8 : List Line := chars "onError: (error) => \x7b" :: List.replicate 35 (chars "x")

/-- A handler whose body references a bare `id` outside any interpolation. -/
def exB : List Line :=
  [chars "onError: (error) => \x7b",
   chars "  log(id);",
   chars "\x7d,"]

/-- The single Issue produced by `checkFileA` on `ex3`. -/
def issue3 : Issue :=
  ⟨1, chars "unknown", [chars "foo", chars "bar"], chars "onError: (error) => \x7b"⟩

/-- The single Problem produced by `checkFileB` on `exB`. -/
def probB : Problem := ⟨2, chars "log(id);", 1⟩

/-! ### Helper lemmas -/

lemma mem_bodyIdxA {i len j : Nat} (h : j ∈ bodyIdxA i len) :
    i + 1 ≤ j ∧ j ≤ i + 30 ∧ j < len := by
  simp only [bodyIdxA] at h
  have h2 := List.mem_range'_1.mp h
  omega

lemma mem_bodyIdxB {i len j : Nat} (h : j ∈ bodyIdxB i len) :
    i + 1 ≤ j ∧ j ≤ i + 20 ∧ j < len := by
  simp only [bodyIdxB] at h
  have h2 := List.mem_range'_1.mp h
  omega

lemma mem_ownerWindow {i j : Nat} (h : j ∈ ownerWindow i) : i - 20 ≤ j ∧ j < i := by
  simp only [ownerWindow] at h
  have h2 := List.mem_range'_1.mp h
  omega

lemma findSome?_range'_first {α : Type} (f : Nat → Option α) (a : α) :
    ∀ (n s j : Nat), s ≤ j → j < s + n → f j = some a →
      (∀ k, s ≤ k → k < j → f k = none) →
      (List.range' s n).findSome? f = some a := by
  intro n
  induction n with
  | zero => intro s j h1 h2 _ _; omega
  | succ m ih =>
    intro s j h1 h2 hj hk
    rw [List.range'_succ s m 1]
    rcases Nat.eq_or_lt_of_le h1 with he | hlt
    · subst he
      simp [List.findSome?_cons, hj]
    · have hs : f s = none := hk s (Nat.le_refl s) hlt
      simp only [List.findSome?_cons, hs]
      exact ih (s + 1) j hlt (by omega) hj (fun k hk1 hk2 => hk k (by omega) hk2)

lemma bodyEndAAux_first (lines : List Line) :
    ∀ (n s d j : Nat), s ≤ j → j < s + n → breakA lines j = true →
      (∀ k, s ≤ k → k < j → breakA lines k = false) →
      bodyEndAAux lines (List.range' s n) d = j := by
  intro n
  induction n with
  | zero => intro s d j h1 h2 _ _; omega
  | succ m ih =>
    intro s d j h1 h2 hj hk
    rw [List.range'_succ s m 1]
    rcases Nat.eq_or_lt_of_le h1 with he | hlt
    · subst he
      simp [bodyEndAAux, hj]
    · have hs : breakA lines s = false := hk s (Nat.le_refl s) hlt
      simp only [bodyEndAAux, hs, Bool.false_eq_true, if_false]
      exact ih (s + 1) d j hlt (by omega) hj (fun k hk1 hk2 => hk k (by omega) hk2)

lemma bodyEndAAux_default (lines : List Line) :
    ∀ (l : List Nat) (d : Nat), (∀ j ∈ l, breakA lines j = false) →
      bodyEndAAux lines l d = d := by
  intro l
  induction l with
  | nil => intro d _; rfl
  | cons a t ih =>
    intro d h
    have ha : breakA lines a = false := h a (List.mem_cons_self a t)
    simp only [bodyEndAAux, ha, Bool.false_eq_true, if_false]
    exact ih d (fun j hj => h j (List.mem_cons_of_mem a hj))

lemma mem_stepVar {cl : Line} {acc : List Line} {w v : Line}
    (h : v ∈ stepVar cl acc w) : v ∈ acc ∨ v ∉ allowlist := by
  unfold stepVar at h
  by_cases h1 : w ∉ allowlist ∧ memberCheck w cl = false
  · rw [if_pos h1] at h
    by_cases h2 : declKwCheck w cl = false
    · rw [if_pos h2] at h
      by_cases h3 : w ∈ acc
      · rw [if_pos h3] at h; exact .inl h
      · rw [if_neg h3] at h
        rcases List.mem_append.mp h with h4 | h4
        · exact .inl h4
        · have hvw : v = w := by simpa using h4
          subst hvw; exact .inr h1.1
    · rw [if_neg h2] at h; exact .inl h
  · rw [if_neg h1] at h; exact .inl h

lemma stepVar_allowed {cl : Line} {acc : List Line} {w : Line} (h : w ∈ allowlist) :
    stepVar cl acc w = acc := by
  unfold stepVar
  rw [if_neg]
  intro hc
  exact hc.1 h

lemma mem_foldl_stepVar {cl v : Line} :
    ∀ (ws : List Line) (acc : List Line),
      v ∈ ws.foldl (stepVar cl) acc → v ∈ acc ∨ v ∉ allowlist := by
  intro ws
  induction ws with
  | nil => intro acc h; exact .inl h
  | cons w t ih =>
    intro acc h
    rcases ih (stepVar cl acc w) h with h1 | h1
    · exact mem_stepVar h1
    · exact .inr h1

lemma mem_processLine {cl v : Line} {acc : List Line}
    (h : v ∈ processLine cl acc) : v ∈ acc ∨ v ∉ allowlist :=
  mem_foldl_stepVar (findTemplateVars cl) acc h

lemma foldl_stepVar_allowed {cl : Line} :
    ∀ (ws : List Line) (acc : List Line), (∀ w ∈ ws, w ∈ allowlist) →
      ws.foldl (stepVar cl) acc = acc := by
  intro ws
  induction ws with
  | nil => intro acc _; rfl
  | cons w t ih =>
    intro acc h
    have hw : w ∈ allowlist := h w (List.mem_cons_self w t)
    simp only [List.foldl_cons, stepVar_allowed hw]
    exact ih acc (fun u hu => h u (List.mem_cons_of_mem w hu))

lemma processLine_allowed {cl : Line} {acc : List Line}
    (h : ∀ w ∈ findTemplateVars cl, w ∈ allowlist) : processLine cl acc = acc :=
  foldl_stepVar_allowed (findTemplateVars cl) acc h

lemma mem_scanBodyA {lines : List Line} {v : Line} :
    ∀ (l : List Nat) (acc : List Line),
      v ∈ scanBodyA lines l acc → v ∈ acc ∨ v ∉ allowlist := by
  intro l
  induction l with
  | nil => intro acc h; exact .inl h
  | cons j t ih =>
    intro acc h
    unfold scanBodyA at h
    by_cases hb : breakA lines j = true
    · rw [if_pos hb] at h; exact .inl h
    · rw [if_neg hb] at h
      rcases ih (processLine (lines.getD j []) acc) h with h1 | h1
      · exact mem_processLine h1
      · exact .inr h1

lemma issueAtA_eq_some {lines : List Line} {i : Nat} {x : Issue}
    (h : issueAtA lines i = some x) :
    x.line = i + 1 ∧ searchSigA (lines.getD i []) = true ∧
      x.vars = scanBodyA lines (bodyIdxA i lines.length) [] ∧ x.vars ≠ [] := by
  unfold issueAtA at h
  by_cases h1 : searchSigA (lines.getD i []) = true
  · rw [if_pos h1] at h
    by_cases h2 : (scanBodyA lines (bodyIdxA i lines.length) []).isEmpty = true
    · rw [if_pos h2] at h; exact absurd h (by simp)
    · rw [if_neg h2] at h
      have hx := Option.some.inj h
      subst hx
      refine ⟨rfl, h1, rfl, ?_⟩
      simpa [List.isEmpty_iff] using h2
  · rw [if_neg h1] at h; exact absurd h (by simp)

lemma scanBodyB_eq_some {i : Nat} {lines : List Line} :
    ∀ {l : List Nat} {p : Problem}, scanBodyB i lines l = some p →
      ∃ j ∈ l, reportB (lines.getD j []) = true ∧
        p = ⟨j + 1, trimChars (lines.getD j []), i + 1⟩ := by
  intro l
  induction l with
  | nil => intro p h; exact absurd h (by simp [scanBodyB])
  | cons j t ih =>
    intro p h
    unfold scanBodyB at h
    by_cases h1 : reportB (lines.getD j []) = true
    · rw [if_pos h1] at h
      exact ⟨j, List.mem_cons_self j t, h1, (Option.some.inj h).symm⟩
    · rw [if_neg h1] at h
      by_cases h2 : stopB (lines.getD j []) = true
      · rw [if_pos h2] at h; exact absurd h (by simp)
      · rw [if_neg h2] at h
        rcases ih h with ⟨k, hk, hr, hp⟩
        exact ⟨k, List.mem_cons_of_mem j hk, hr, hp⟩

lemma probAtB_eq_some {lines : List Line} {i : Nat} {p : Problem}
    (h : probAtB lines i = some p) :
    searchSigB (lines.getD i []) = true ∧
      scanBodyB i lines (bodyIdxB i lines.length) = some p := by
  unfold probAtB at h
  by_cases h1 : searchSigB (lines.getD i []) = true
  · rw [if_pos h1] at h; exact ⟨h1, h⟩
  · rw [if_neg h1] at h; exact absurd h (by simp)

lemma pairwise_lines_filterMap (lines : List Line) :
    ∀ (l : List Nat), l.Pairwise (· < ·) →
      ((l.filterMap (issueAtA lines)).map (fun x => x.line)).Pairwise (· < ·) := by
  intro l
  induction l with
  | nil => intro _; simp
  | cons i t ih =>
    intro hp
    rcases List.pairwise_cons.mp hp with ⟨hlt, hp'⟩
    cases hi : issueAtA lines i with
    | none => simpa [List.filterMap_cons, hi] using ih hp'
    | some x =>
      simp only [List.filterMap_cons, hi, List.map_cons]
      refine List.pairwise_cons.mpr ⟨?_, ih hp'⟩
      intro y hy
      rcases List.mem_map.mp hy with ⟨z, hz, hzy⟩
      rcases List.mem_filterMap.mp hz with ⟨k, hk, hzk⟩
      have hxl := (issueAtA_eq_some hi).1
      have hzl := (issueAtA_eq_some hzk).1
      rw [← hzy, hxl, hzl]
      exact Nat.succ_lt_succ (hlt k hk)

lemma scanBodyA_eq_takeWhile (lines : List Line) :
    ∀ (l : List Nat) (acc : List Line),
      scanBodyA lines l acc =
        (l.takeWhile (fun j => !(breakA lines j))).foldl
          (fun a j => processLine (lines.getD j []) a) acc := by
  intro l
  induction l with
  | nil => intro acc; rfl
  | cons j t ih =>
    intro acc
    by_cases hb : breakA lines j = true
    · simp [scanBodyA, List.takeWhile_cons, hb]
    · have hb' : breakA lines j = false := by simpa using hb
      simp [scanBodyA, List.takeWhile_cons, hb', ih]

lemma mem_scannedA {lines : List Line} {i j : Nat} (h : j ∈ scannedA lines i) :
    j ∈ bodyIdxA i lines.length ∧ breakA lines j = false := by
  unfold scannedA at h
  refine ⟨(List.takeWhile_sublist _).subset h, ?_⟩
  have hp := List.mem_takeWhile_imp h
  simp only [Bool.not_eq_true'] at hp
  exact hp

lemma mem_scannedB {lines : List Line} {i j : Nat} (h : j ∈ scannedB lines i) :
    j ∈ bodyIdxB i lines.length ∧ reportB (lines.getD j []) = false ∧
      stopB (lines.getD j []) = false := by
  unfold scannedB at h
  refine ⟨(List.takeWhile_sublist _).subset h, ?_⟩
  have hp := List.mem_takeWhile_imp h
  simp only [Bool.and_eq_true, Bool.not_eq_true'] at hp
  exact hp

lemma foldl_extend_issuesA :
    ∀ (files : List FileInput) (acc : List Issue),
      files.foldl (fun a f => a ++ checkTopA f) acc = acc ++ allIssuesA files := by
  intro files
  induction files with
  | nil => intro acc; simp [allIssuesA]
  | cons f t ih =>
    intro acc
    simp only [allIssuesA, List.foldl_cons, List.nil_append]
    rw [ih (acc ++ checkTopA f), ih (checkTopA f)]
    simp [List.append_assoc]

lemma foldl_extend_problemsB :
    ∀ (files : List FileInput) (acc : List Problem),
      files.foldl (fun a f => a ++ checkTopB f) acc = acc ++ allProblemsB files := by
  intro files
  induction files with
  | nil => intro acc; simp [allProblemsB]
  | cons f t ih =>
    intro acc
    simp only [allProblemsB, List.foldl_cons, List.nil_append]
    rw [ih (acc ++ checkTopB f), ih (checkTopB f)]
    simp [List.append_assoc]

lemma allIssuesA_append (l1 l2 : List FileInput) :
    allIssuesA (l1 ++ l2) = allIssuesA l1 ++ allIssuesA l2 := by
  unfold allIssuesA
  rw [List.foldl_append]
  rw [foldl_extend_issuesA l2]
  rfl

lemma allProblemsB_append (l1 l2 : List FileInput) :
    allProblemsB (l1 ++ l2) = allProblemsB l1 ++ allProblemsB l2 := by
  unfold allProblemsB
  rw [List.foldl_append]
  rw [foldl_extend_problemsB l2]
  rfl

lemma isPrefixOf_nil {pat : Line} (h : pat.isPrefixOf [] = true) : pat = [] := by
  cases pat with
  | nil => rfl
  | cons a as => simp [List.isPrefixOf] at h

lemma isPrefixOf_append {pat : Line} :
    ∀ {l : Line} (e : Line), pat.isPrefixOf l = true → pat.isPrefixOf (l ++ e) = true := by
  induction pat with
  | nil => intro l e _; simp [List.isPrefixOf]
  | cons a as ih =>
    intro l e h
    cases l with
    | nil => simp [List.isPrefixOf] at h
    | cons b bs =>
      simp only [List.isPrefixOf, Bool.and_eq_true] at h
      simp only [List.cons_append, List.isPrefixOf, Bool.and_eq_true]
      exact ⟨h.1, ih e h.2⟩

lemma containsSub_nil_pat : ∀ (l : Line), containsSub [] l = true := by
  intro l
  cases l with
  | nil => rfl
  | cons c rest => simp [containsSub, List.isPrefixOf]

lemma containsSub_cons {pat : Line} {l : Line} (c : Char)
    (h : containsSub pat l = true) : containsSub pat (c :: l) = true := by
  simp [containsSub, h]

lemma containsSub_append_right {pat : Line} :
    ∀ {l : Line} (e : Line), containsSub pat l = true → containsSub pat (l ++ e) = true := by
  intro l
  induction l with
  | nil =>
    intro e h
    have hp : pat = [] := isPrefixOf_nil (by simpa [containsSub] using h)
    subst hp
    exact containsSub_nil_pat e
  | cons c rest ih =>
    intro e h
    simp only [containsSub, Bool.or_eq_true] at h
    rcases h with h1 | h1
    · have := isPrefixOf_append e h1
      simp only [List.cons_append] at this ⊢
      simp [containsSub, this]
    · exact containsSub_cons c (ih e h1)

lemma containsSub_dropWhile {pat : Line} (q : Char → Bool) :
    ∀ {l : Line}, containsSub pat (l.dropWhile q) = true → containsSub pat l = true := by
  intro l
  induction l with
  | nil => intro h; simpa using h
  | cons c rest ih =>
    intro h
    by_cases hq : q c = true
    · rw [List.dropWhile_cons_of_pos hq] at h
      exact containsSub_cons c (ih h)
    · rw [List.dropWhile_cons_of_neg hq] at h
      exact h

lemma exists_dropWhile_decomp (q : Char → Bool) :
    ∀ (l : Line), ∃ t, l = t ++ l.dropWhile q := by
  intro l
  induction l with
  | nil => exact ⟨[], rfl⟩
  | cons c rest ih =>
    by_cases hq : q c = true
    · rcases ih with ⟨t, ht⟩
      exact ⟨c :: t, by rw [List.dropWhile_cons_of_pos hq, List.cons_append, ← ht]⟩
    · exact ⟨[], by rw [List.dropWhile_cons_of_neg hq, List.nil_append]⟩

lemma containsSub_trimChars {pat l : Line}
    (h : containsSub pat (trimChars l) = true) : containsSub pat l = true := by
  unfold trimChars at h
  rcases exists_dropWhile_decomp isPySpace (l.dropWhile isPySpace).reverse with ⟨t, ht⟩
  have hm : l.dropWhile isPySpace =
      ((l.dropWhile isPySpace).reverse.dropWhile isPySpace).reverse ++ t.reverse := by
    have := congrArg List.reverse ht
    simpa [List.reverse_append] using this
  have h2 : containsSub pat (l.dropWhile isPySpace) = true := by
    rw [hm]
    exact containsSub_append_right t.reverse h
  exact containsSub_dropWhile isPySpace h2

lemma exclB_false_no_pat {l : Line} (h : exclB l = false) :
    ∀ pat ∈ exclPats, containsSub pat l = false := by
  intro pat hpat
  by_contra hc
  have hc' : containsSub pat l = true := by
    cases hcc : containsSub pat l with
    | false => exact absurd hcc hc
    | true => rfl
  have : exclB l = true := by
    unfold exclB
    exact List.any_eq_true.mpr ⟨pat, hpat, hc'⟩
  rw [this] at h
  exact absurd h (by simp)

/-! ### Claim theorems -/

/-- C1, counterexample.  The end-to-end scenario claims exactly one Finding
(identifier `id`, owner `m`, flagged at the toast line); on `c1file`, a
faithful rendering of the scenario, the generic analyzer produces no
Finding at all. -/
theorem c1_counterexample : (checkFileA c1file).length ≠ 1 := by decide

/-- C1, amended.  On the end-to-end scenario file both modes produce zero
Findings: `id` belongs to the generic mode's allowlist, and in the
single-name mode the interpolated `id` matches an exclusion alternative. -/
theorem c1_amended :
    checkFileA c1file = [] ∧ checkFileB c1file = [] ∧ chars "id" ∈ allowlist := by
  decide

/-- C2, counterexample.  The claim says the nearest preceding mutation
binding wins; on `exW` the handler at index 2 has a nearer binding `b` at
index 1, yet the reported owner is `a`, bound at index 0: the window is
iterated forward, so the farthest match wins. -/
theorem c2_counterexample :
    ownerSearch (exW.getD 1 []) = some (chars "b") ∧
    searchSigA (exW.getD 2 []) = true ∧
    (checkFileA exW).map (fun x => x.mutation) = [chars "a"] := by decide

/-- C2, amended.  The reported owner name is bound by the earliest
mutation-binding declaration inside the 20-line backward window (first
match of the forward iteration over the window); when no line of the
window matches, the sentinel `unknown` is reported. -/
theorem c2_owner_earliest :
    (∀ (lines : List Line) (i j : Nat) (name : Line),
        j ∈ ownerWindow i → ownerSearch (lines.getD j []) = some name →
        (∀ k ∈ ownerWindow i, k < j → ownerSearch (lines.getD k []) = none) →
        ownerName lines i = name) ∧
    (∀ (lines : List Line) (i : Nat),
        (∀ k ∈ ownerWindow i, ownerSearch (lines.getD k []) = none) →
        ownerName lines i = chars "unknown") := by
  constructor
  · intro lines i j name hj hname hk
    have hb := mem_ownerWindow hj
    have hfind :
        (ownerWindow i).findSome? (fun j => ownerSearch (lines.getD j [])) = some name := by
      unfold ownerWindow
      refine findSome?_range'_first _ name (i - (i - 20)) (i - 20) j hb.1 (by omega) hname ?_
      intro k hk1 hk2
      refine hk k ?_ hk2
      unfold ownerWindow
      refine List.mem_range'_1.mpr ⟨hk1, by omega⟩
    unfold ownerName
    rw [hfind]
  · intro lines i hk
    have hfind :
        (ownerWindow i).findSome? (fun j => ownerSearch (lines.getD j [])) = none :=
      List.findSome?_eq_none_iff.mpr hk
    unfold ownerName
    rw [hfind]

/-- C2 witness: on `exW` the earliest binding `a` wins for the handler at
index 2; on an empty file the sentinel is reported. -/
theorem c2_owner_earliest_witness :
    ownerName exW 2 = chars "a" ∧ ownerName ([] : List Line) 0 = chars "unknown" :=
  ⟨c2_owner_earliest.1 exW 2 0 (chars "a") (by decide) (by decide) (by decide),
   c2_owner_earliest.2 [] 0 (by decide)⟩

/-- C3, counterexample.  On `ex3` identifiers survive the filters on two
distinct body lines (indices 1 and 2), yet the analyzer emits exactly one
Finding and records the signature line 1, not the occurrence lines. -/
theorem c3_counterexample :
    processLine (ex3.getD 1 []) [] = [chars "foo"] ∧
    processLine (ex3.getD 2 []) [] = [chars "bar"] ∧
    (checkFileA ex3).map (fun x => x.line) = [1] := by decide

/-- C3, amended.  The generic mode emits at most one Finding per handler
(recorded line numbers are strictly increasing, hence distinct), each
Finding's recorded line is its signature line, and its identifier list is
the aggregate of the whole body scan, nonempty. -/
theorem c3_per_handler :
    ∀ (lines : List Line),
      ((checkFileA lines).map (fun x => x.line)).Pairwise (· < ·) ∧
      (∀ x ∈ checkFileA lines, x.vars ≠ [] ∧
        x.vars = scanBodyA lines (bodyIdxA (x.line - 1) lines.length) []) := by
  intro lines
  constructor
  · exact pairwise_lines_filterMap lines (List.range lines.length) (List.pairwise_lt_range _)
  · intro x hx
    unfold checkFileA at hx
    rcases List.mem_filterMap.mp hx with ⟨i, _, hi⟩
    rcases issueAtA_eq_some hi with ⟨hl, _, hv, hne⟩
    refine ⟨hne, ?_⟩
    rw [hl]
    simpa using hv

/-- C3 witness: the single Finding of `ex3` aggregates both body lines. -/
theorem c3_per_handler_witness :
    issue3.vars ≠ [] ∧
    issue3.vars = scanBodyA ex3 (bodyIdxA (issue3.line - 1) ex3.length) [] :=
  (c3_per_handler ex3).2 issue3 (by decide)

/-- C4, confirmed.  No allowlisted identifier ever reaches a Finding's
suspicious-identifier list, and a body line whose interpolation
placeholders are all allowlisted contributes nothing to the scan. -/
theorem c4_allowlist_safe :
    (∀ (lines : List Line) (x : Issue) (v : Line),
        x ∈ checkFileA lines → v ∈ x.vars → v ∉ allowlist) ∧
    (∀ (cl : Line) (acc : List Line),
        (∀ w ∈ findTemplateVars cl, w ∈ allowlist) → processLine cl acc = acc) := by
  constructor
  · intro lines x v hx hv
    unfold checkFileA at hx
    rcases List.mem_filterMap.mp hx with ⟨i, _, hi⟩
    rcases issueAtA_eq_some hi with ⟨_, _, hvars, _⟩
    rw [hvars] at hv
    rcases mem_scanBodyA _ _ hv with h1 | h1
    · exact absurd h1 (List.not_mem_nil v)
    · exact h1
  · intro cl acc h
    exact processLine_allowed h

/-- C4 witness: the reported `foo` of `ex3` is not allowlisted, and the
scenario's toast line (whose only placeholder is `id`) contributes
nothing. -/
theorem c4_allowlist_safe_witness :
    chars "foo" ∉ allowlist ∧
    processLine (chars "    toast(`Failed $\x7bid\x7d`);") [] = [] :=
  ⟨c4_allowlist_safe.1 ex3 issue3 (chars "foo") (by decide) (by decide),
   c4_allowlist_safe.2 (chars "    toast(`Failed $\x7bid\x7d`);") [] (by decide)⟩

/-- C5, counterexample.  On `ex3` the only handler signature sits at index
0 (reported line 1) and its body scan covers indices 1 and 2 (stopping at
3), i.e. reported body lines would be 2 and 3; yet the single Finding's
line is 1, the signature line itself, outside every handler body range. -/
theorem c5_counterexample :
    (checkFileA ex3).map (fun x => x.line) = [1] ∧
    (List.range ex3.length).filter (fun i => searchSigA (ex3.getD i [])) = [0] ∧
    bodyEndA ex3 0 = 3 := by decide

/-- C5, amended.  Every generic-mode Finding records the signature line of
its handler (never a body line); every single-name-mode Problem records a
line strictly after its signature line and at most 20 lines below it. -/
theorem c5_finding_lines :
    (∀ (lines : List Line) (x : Issue), x ∈ checkFileA lines →
        searchSigA (lines.getD (x.line - 1) []) = true) ∧
    (∀ (lines : List Line) (p : Problem), p ∈ checkFileB lines →
        searchSigB (lines.getD (p.onErrorLine - 1) []) = true ∧
        p.onErrorLine < p.lineNum ∧ p.lineNum ≤ p.onErrorLine + 20) := by
  constructor
  · intro lines x hx
    unfold checkFileA at hx
    rcases List.mem_filterMap.mp hx with ⟨i, _, hi⟩
    rcases issueAtA_eq_some hi with ⟨hl, hs, _, _⟩
    rw [hl]
    simpa using hs
  · intro lines p hp
    unfold checkFileB at hp
    rcases List.mem_filterMap.mp hp with ⟨i, _, hi⟩
    rcases probAtB_eq_some hi with ⟨hs, hscan⟩
    rcases scanBodyB_eq_some hscan with ⟨j, hj, _, hpj⟩
    have hb := mem_bodyIdxB hj
    subst hpj
    refine ⟨?_, ?_, ?_⟩
    · show searchSigB (lines.getD (i + 1 - 1) []) = true
      simpa using hs
    · show i + 1 < j + 1
      omega
    · show j + 1 ≤ i + 1 + 20
      omega

/-- C5 witness: instantiated at the concrete Findings of `ex3` and `exB`. -/
theorem c5_finding_lines_witness :
    searchSigA (ex3.getD (issue3.line - 1) []) = true ∧
    (searchSigB (exB.getD (probB.onErrorLine - 1) []) = true ∧
      probB.onErrorLine < probB.lineNum ∧ probB.lineNum ≤ probB.onErrorLine + 20) :=
  ⟨c5_finding_lines.1 ex3 issue3 (by decide),
   c5_finding_lines.2 exB probB (by decide)⟩

/-- C6, confirmed.  The owner lookup window holds at most the 20 line
indices before the signature line; the generic body window stays within
the 30 lines after it and the single-name window within 20; and when no
break condition fires inside the window, the generic scan stops exactly at
the window edge.  All scans are total functions by construction. -/
theorem c6_bounded_windows :
    (∀ i : Nat, (ownerWindow i).length ≤ 20 ∧
        ∀ j ∈ ownerWindow i, i - 20 ≤ j ∧ j < i) ∧
    (∀ (lines : List Line) (i : Nat),
        (∀ j ∈ bodyIdxA i lines.length, i + 1 ≤ j ∧ j ≤ i + 30 ∧ j < lines.length) ∧
        (∀ j ∈ bodyIdxB i lines.length, i + 1 ≤ j ∧ j ≤ i + 20 ∧ j < lines.length)) ∧
    (∀ (lines : List Line) (i : Nat),
        (∀ j ∈ bodyIdxA i lines.length, breakA lines j = false) →
        bodyEndA lines i = min (i + 31) lines.length) := by
  refine ⟨?_, ?_, ?_⟩
  · intro i
    constructor
    · simp only [ownerWindow, List.length_range']
      omega
    · intro j hj
      exact mem_ownerWindow hj
  · intro lines i
    exact ⟨fun j hj => mem_bodyIdxA hj, fun j hj => mem_bodyIdxB hj⟩
  · intro lines i h
    unfold bodyEndA
    exact bodyEndAAux_default lines _ _ h

/-- C6 witness: the oversized unterminated handler of `ex8` stops at the
window edge. -/
theorem c6_bounded_windows_witness : bodyEndA ex8 0 = min (0 + 31) ex8.length :=
  c6_bounded_windows.2.2 ex8 0 (by decide)

/-- C7, counterexample.  In `ex7` the line at index 2 is brace-only and its
following non-blank line (index 4) starts a handler-style property, yet
the scan does not stop there: the blank line at index 3 defeats the
confirmation, the scan runs to index 6 and even picks up `baz` from the
next handler's body. -/
theorem c7_counterexample :
    isCloseA (ex7.getD 2 []) = true ∧
    trimChars (ex7.getD 3 []) = [] ∧
    (chars "on").isPrefixOf (trimChars (ex7.getD 4 [])) = true ∧
    bodyEndA ex7 0 = 6 ∧
    (checkFileA ex7).map (fun x => x.vars) = [[chars "foo", chars "baz"]] := by decide

/-- C7, amended.  The body scan stops at the first window index whose line
is brace-only and whose immediately following line, stripped, starts with
`on` or equals the closing patterns; a blank immediately following line
always defeats the break condition. -/
theorem c7_boundary_immediate_next :
    (∀ (lines : List Line) (i j : Nat),
        j ∈ bodyIdxA i lines.length → breakA lines j = true →
        (∀ k ∈ bodyIdxA i lines.length, k < j → breakA lines k = false) →
        bodyEndA lines i = j) ∧
    (∀ (lines : List Line) (j : Nat),
        trimChars (lines.getD (j + 1) []) = [] → breakA lines j = false) := by
  constructor
  · intro lines i j hj hbreak hk
    have hmem := hj
    unfold bodyIdxA at hmem
    have hb := List.mem_range'_1.mp hmem
    unfold bodyEndA bodyIdxA
    refine bodyEndAAux_first lines _ _ _ _ hb.1 hb.2 hbreak ?_
    intro k hk1 hk2
    refine hk k ?_ hk2
    unfold bodyIdxA
    exact List.mem_range'_1.mpr ⟨hk1, by omega⟩
  · intro lines j h
    have hno : nextOkA (lines.getD (j + 1) []) = false := by
      simp only [nextOkA, h]
      decide
    unfold breakA
    rw [hno]
    simp

/-- C7 witness: on `ex3` the break fires at index 3, the first brace-only
line confirmed by its immediate successor. -/
theorem c7_boundary_immediate_next_witness : bodyEndA ex3 0 = 3 :=
  c7_boundary_immediate_next.1 ex3 0 3 (by decide) (by decide) (by decide)

/-- C8, counterexample.  On `ex8` both modes recognize the signature at
index 0, yet the sets of body lines they scan differ (30 versus 20
lines): the modes do not share the boundary and termination logic. -/
theorem c8_counterexample :
    searchSigA (ex8.getD 0 []) = true ∧ searchSigB (ex8.getD 0 []) = true ∧
    scannedA ex8 0 ≠ scannedB ex8 0 := by decide

/-- C8, amended.  Each mode's scan is bounded by its own window: 30 lines
after the signature in the generic mode, 20 in the single-name mode; on
the unterminated `ex8` the scans cover exactly those distinct windows. -/
theorem c8_modes_differ :
    (∀ (lines : List Line) (i : Nat),
        (∀ j ∈ scannedA lines i, i + 1 ≤ j ∧ j ≤ i + 30) ∧
        (∀ j ∈ scannedB lines i, i + 1 ≤ j ∧ j ≤ i + 20)) ∧
    (scannedA ex8 0 = List.range' 1 30 ∧ scannedB ex8 0 = List.range' 1 20) := by
  constructor
  · intro lines i
    constructor
    · intro j hj
      have h := mem_bodyIdxA (mem_scannedA hj).1
      exact ⟨h.1, h.2.1⟩
    · intro j hj
      have h := mem_bodyIdxB (mem_scannedB hj).1
      exact ⟨h.1, h.2.1⟩
  · exact ⟨by decide, by decide⟩

/-- C8 witness: line index 5 of the `ex8` generic scan lies inside the
30-line window, and the single-name scan is exactly the 20-line window. -/
theorem c8_modes_differ_witness :
    (0 + 1 ≤ 5 ∧ 5 ≤ 0 + 30) ∧ scannedB ex8 0 = List.range' 1 20 :=
  ⟨(c8_modes_differ.1 ex8 0).1 5 (by decide), c8_modes_differ.2.2⟩

/-- C9, confirmed.  An unreadable or undecodable file yields the empty
result in both modes, and removing such a file from the traversal list
leaves the aggregated report of the remaining files unchanged. -/
theorem c9_unreadable_skipped :
    (checkTopA none = [] ∧ checkTopB none = []) ∧
    (∀ (fs1 fs2 : List FileInput),
        allIssuesA (fs1 ++ none :: fs2) = allIssuesA (fs1 ++ fs2) ∧
        allProblemsB (fs1 ++ none :: fs2) = allProblemsB (fs1 ++ fs2)) := by
  refine ⟨⟨rfl, rfl⟩, ?_⟩
  intro fs1 fs2
  constructor
  · rw [show (none :: fs2 : List FileInput) = [none] ++ fs2 from rfl]
    rw [allIssuesA_append fs1 ([none] ++ fs2), allIssuesA_append [none] fs2,
        allIssuesA_append fs1 fs2]
    have hnone : allIssuesA [none] = [] := rfl
    rw [hnone]
    simp
  · rw [show (none :: fs2 : List FileInput) = [none] ++ fs2 from rfl]
    rw [allProblemsB_append fs1 ([none] ++ fs2), allProblemsB_append [none] fs2,
        allProblemsB_append fs1 fs2]
    have hnone : allProblemsB [none] = [] := rfl
    rw [hnone]
    simp

/-- C10, confirmed.  A line containing the interpolation opener followed by
`id` matches the exclusion pattern and is never reported by the
single-name mode; consequently no reported Problem's line contains that
substring, so only occurrences of `id` outside such placeholders are ever
reported. -/
theorem c10_interp_id_excluded :
    (∀ l : Line, containsSub (chars "\x7bid") l = true → reportB l = false) ∧
    (∀ (lines : List Line) (p : Problem), p ∈ checkFileB lines →
        containsSub (chars "\x7bid") p.line = false) := by
  constructor
  · intro l h
    have hexcl : exclB l = true := by
      unfold exclB
      exact List.any_eq_true.mpr ⟨chars "\x7bid", by decide, h⟩
    unfold reportB
    rw [hexcl]
    simp
  · intro lines p hp
    unfold checkFileB at hp
    rcases List.mem_filterMap.mp hp with ⟨i, _, hi⟩
    rcases probAtB_eq_some hi with ⟨_, hscan⟩
    rcases scanBodyB_eq_some hscan with ⟨j, _, hrep, hpj⟩
    have hex : exclB (lines.getD j []) = false := by
      simp only [reportB, Bool.and_eq_true, Bool.not_eq_true'] at hrep
      exact hrep.2
    subst hpj
    show containsSub (chars "\x7bid") (trimChars (lines.getD j [])) = false
    cases hv : containsSub (chars "\x7bid") (trimChars (lines.getD j [])) with
    | false => rfl
    | true =>
      have h1 := containsSub_trimChars hv
      have h2 := exclB_false_no_pat hex (chars "\x7bid") (by decide)
      rw [h1] at h2
      exact absurd h2 (by simp)

/-- C10 witness: the scenario's toast line is not reported, and the
concrete Problem of `exB` contains no interpolated `id`. -/
theorem c10_interp_id_excluded_witness :
    reportB (chars "    toast(`Failed $\x7bid\x7d`);") = false ∧
    containsSub (chars "\x7bid") probB.line = false :=
  ⟨c10_interp_id_excluded.1 (chars "    toast(`Failed $\x7bid\x7d`);") (by decide),
   c10_interp_id_excluded.2 exB probB (by decide)⟩

end OnErr
